import Mathlib

/-!
Shallow embedding of the `oraclaw-service` core (embedding provider, memory
store, similarity search, session/transcript stores) and proofs about it.

Python strings are modelled as Lean `String` (in this toolchain a `String`
wraps a `List Char`, so slicing `text[:512]` is `String.take 512`), Python
floats as `ℚ`, SQL `NUMBER` columns as `ℤ`, nullable columns as `Option`,
raised exceptions as `Except String`, and each database table as a
`List` of row structures.  The external collaborators (the Oracle backend,
the sentence-transformers model) are modelled as an explicit environment
record whose fields give the outcome of each call the code makes.
-/

namespace Oraclaw

/-- An embedding vector: ordered sequence of floats (`list[float]`). -/
abbrev Vec := List ℚ

/-- Raised exceptions carry a message string. -/
abbrev Err := String

/-! ## Embedding service (`services/embedding_service.py`) -/

/-- The two modes of `EmbeddingService._mode` (`"database"` / `"python"`). -/
inductive EmbMode where
  | database
  | python
deriving DecidableEq

/-- Outcomes of the external calls `EmbeddingService` makes.

* `regQuery`: connecting and running
  `SELECT COUNT(*) FROM USER_MINING_MODELS WHERE MODEL_NAME = :model_name`
  inside `check_onnx_loaded`; `.error` is a raised exception, `.ok none`
  a `fetchone()` returning no row, `.ok (some n)` the fetched count.
* `connect`: `_create_sync_connection()` for `initialize`'s own connection.
* `vectorEmbedding t`: running
  `SELECT VECTOR_EMBEDDING(model USING :text AS DATA) FROM DUAL` with bind
  `t`; `.ok none` means `fetchone()` returned `None`, `.ok (some none)` a
  row whose single column is `NULL`, `.ok (some (some v))` a row holding
  vector `v`.
* `loadModel`: `_load_sentence_transformer()`.
* `modelEncode ts`: `self._model.encode(ts)` of the loaded local model. -/
structure EmbEnv where
  regQuery : Except Err (Option Nat)
  connect : Except Err Unit
  vectorEmbedding : String → Except Err (Option (Option Vec))
  loadModel : Except Err Unit
  modelEncode : List String → Except Err (List Vec)

/-- The relevant mutable attributes of an `EmbeddingService` instance:
`_mode`, `_sync_conn` (modelled by whether it is set) and `_model`. -/
structure EmbState where
  mode : Option EmbMode
  syncConn : Bool
  modelLoaded : Bool
deriving DecidableEq

/-- `EmbeddingService.check_onnx_loaded`: `row[0] > 0 if row else False`,
with any raised exception caught and turned into `False`. -/
def checkOnnxLoaded (env : EmbEnv) : Bool :=
  match env.regQuery with
  | .ok (some n) => decide (n > 0)
  | .ok none => false
  | .error _ => false

/-- `EmbeddingService._test_db_embedding`: runs the `VECTOR_EMBEDDING` query
on the fixed string `'test'` and returns
`row is not None and row[0] is not None`, catching exceptions as `False`. -/
def testDbEmbedding (env : EmbEnv) : Bool :=
  match env.vectorEmbedding "test" with
  | .ok (some (some _)) => true
  | .ok _ => false
  | .error _ => false

/-- `EmbeddingService.initialize`.  The pair is the final attribute state
together with the exception the call raised, if any (the Python method
re-raises only when the sentence-transformers fallback load fails; in that
case `_mode` is still `None`). -/
def initEmbedding (env : EmbEnv) : EmbState × Option Err :=
  let pythonFallback : EmbState × Option Err :=
    match env.loadModel with
    | .ok _ => (⟨some .python, false, true⟩, none)
    | .error e => (⟨none, false, false⟩, some e)
  if checkOnnxLoaded env then
    match env.connect with
    | .ok _ =>
      if testDbEmbedding env then
        (⟨some .database, true, false⟩, none)
      else
        pythonFallback
    | .error _ => pythonFallback
  else
    pythonFallback

/-- `EmbeddingService._embed_texts_db_sync`.  Each text is truncated with
`text[:512]` before being bound into the `VECTOR_EMBEDDING` query; a raised
exception aborts the whole call, and a falsy row or falsy `row[0]` (no row,
`NULL`, or an empty vector) makes the code append `[0.0] * 384` instead. -/
def embedTextsDbSync (env : EmbEnv) (texts : List String) : Except Err (List Vec) :=
  texts.mapM fun text =>
    match env.vectorEmbedding (text.take 512) with
    | .error e => .error e
    | .ok (some (some v)) => .ok (if v = [] then List.replicate 384 (0 : ℚ) else v)
    | .ok _ => .ok (List.replicate 384 (0 : ℚ))

/-- `EmbeddingService._embed_texts_python_sync`: passes the texts to the
local model unchanged (`self._model.encode(texts)`). -/
def embedTextsPythonSync (env : EmbEnv) (texts : List String) : Except Err (List Vec) :=
  env.modelEncode texts

/-- `EmbeddingService.embed_texts`: dispatch on `_mode`, raising
`RuntimeError` when the service was never initialized. -/
def embedTexts (env : EmbEnv) (st : EmbState) (texts : List String) :
    Except Err (List Vec) :=
  match st.mode with
  | some .database => embedTextsDbSync env texts
  | some .python => embedTextsPythonSync env texts
  | none => .error "EmbeddingService not initialized"

/-- `EmbeddingService.embed_query`: `(await self.embed_texts([text]))[0]`;
indexing an empty result raises `IndexError`. -/
def embedQuery (env : EmbEnv) (st : EmbState) (text : String) : Except Err Vec :=
  match embedTexts env st [text] with
  | .error e => .error e
  | .ok [] => .error "IndexError"
  | .ok (v :: _) => .ok v

/-! ## Memory service (`services/memory_service.py`) -/

/-- A row of `ORACLAW_CHUNKS`; `embedding` is a nullable `VECTOR` column. -/
structure ChunkRow where
  chunk_id : String
  path : String
  source : Option String
  start_line : ℤ
  end_line : ℤ
  hash : String
  model : String
  text : String
  embedding : Option Vec
deriving DecidableEq

/-- The chunk dict handed to `store_chunk`; `source`, `hash` and `model`
are read with `chunk.get(..., default)`, so they are optional. -/
structure Chunk where
  id : String
  path : String
  source : Option String
  start_line : ℤ
  end_line : ℤ
  hash : Option String
  model : Option String
  text : String
deriving DecidableEq

/-- The row `store_chunk` binds into its `MERGE` statement. -/
def chunkRowOf (chunk : Chunk) (embedding : Vec) : ChunkRow :=
  { chunk_id := chunk.id
    path := chunk.path
    source := some (chunk.source.getD "memory")
    start_line := chunk.start_line
    end_line := chunk.end_line
    hash := chunk.hash.getD ""
    model := chunk.model.getD ""
    text := chunk.text
    embedding := some embedding }

/-- `MERGE INTO ORACLAW_CHUNKS`: update the row with the same `chunk_id`
if one exists, insert otherwise. -/
def upsertChunk (table : List ChunkRow) (r : ChunkRow) : List ChunkRow :=
  if table.any fun c => c.chunk_id = r.chunk_id then
    table.map fun c => if c.chunk_id = r.chunk_id then r else c
  else
    table ++ [r]

/-- `MemoryService.store_chunk`: embed `chunk["text"]` (a raised exception
propagates, aborting the write), then upsert the row.  Returns the new
table together with the `id` from the `{"id": ..., "stored": True}` dict. -/
def storeChunk (env : EmbEnv) (st : EmbState) (table : List ChunkRow)
    (chunk : Chunk) : Except Err (List ChunkRow × String) :=
  match embedQuery env st chunk.text with
  | .error e => .error e
  | .ok emb => .ok (upsertChunk table (chunkRowOf chunk emb), chunk.id)

/-- One iteration of the `store_chunks_batch` loop over the running
(table, `stored`, `errors`) state: `try: await self.store_chunk(chunk);
stored += 1; except Exception as e: errors.append(...)`. -/
def batchStep (env : EmbEnv) (st : EmbState)
    (acc : List ChunkRow × Nat × List (String × Err)) (chunk : Chunk) :
    List ChunkRow × Nat × List (String × Err) :=
  match storeChunk env st acc.1 chunk with
  | .ok (t, _) => (t, acc.2.1 + 1, acc.2.2)
  | .error e => (acc.1, acc.2.1, acc.2.2 ++ [(chunk.id, e)])

/-- `MemoryService.store_chunks_batch`: sequential loop; a failing chunk is
recorded as `{"id": ..., "error": str(e)}` and the loop continues.  Result:
final table, `stored` count, and the `errors` list in input order. -/
def storeChunksBatch (env : EmbEnv) (st : EmbState) (table : List ChunkRow)
    (chunks : List Chunk) : List ChunkRow × Nat × List (String × Err) :=
  chunks.foldl (batchStep env st) (table, 0, [])

/-- `row[5] or "memory"`: a `NULL` or empty-string source falls back to
`"memory"` (Python `or` treats `""` as falsy). -/
def sourceOrMemory : Option String → String
  | none => "memory"
  | some s => if s = "" then "memory" else s

/-- The rows the store-side query of `MemoryService.search` scores: chunks
whose `embedding IS NOT NULL`, optionally pre-filtered by `source`, each
paired with `VECTOR_DISTANCE(embedding, :query_vec, COSINE)`.  The distance
operator itself is the backend's and is a parameter `dist`. -/
def chunkScored (dist : Vec → Vec → ℚ) (qvec : Vec) (source : Option String)
    (table : List ChunkRow) : List (ChunkRow × ℚ) :=
  table.filterMap fun r =>
    match r.embedding with
    | none => none
    | some v =>
      match source with
      | some s => if r.source = some s then some (r, dist v qvec) else none
      | none => some (r, dist v qvec)

/-- `ORDER BY score ASC FETCH FIRST :max_results ROWS ONLY`. -/
def chunkTopK (dist : Vec → Vec → ℚ) (qvec : Vec) (source : Option String)
    (maxResults : Nat) (table : List ChunkRow) : List (ChunkRow × ℚ) :=
  (List.insertionSort (fun a b : ChunkRow × ℚ => a.2 ≤ b.2)
    (chunkScored dist qvec source table)).take maxResults

/-- Round-half-to-even of a rational to an integer (Python `round`). -/
def roundHalfEven (q : ℚ) : ℤ :=
  let f := ⌊q⌋
  if q - f < 1 / 2 then f
  else if 1 / 2 < q - f then f + 1
  else if 2 ∣ f then f else f + 1

/-- `round(similarity, 4)`. -/
def round4 (q : ℚ) : ℚ := (roundHalfEven (q * 10000) : ℚ) / 10000

/-- A result dict of `MemoryService.search`. -/
structure SearchResult where
  path : String
  startLine : ℤ
  endLine : ℤ
  snippet : String
  score : ℚ
  source : String
deriving DecidableEq

/-- One result dict of `search`, built from a fetched row and its exact
similarity `1.0 - distance`. -/
def mkSearchResult (r : ChunkRow) (similarity : ℚ) : SearchResult :=
  { path := r.path
    startLine := r.start_line
    endLine := r.end_line
    snippet := r.text.take 500
    score := round4 similarity
    source := sourceOrMemory r.source }

/-- `MemoryService.search`: embed the query (errors propagate), let the
store return the top `max_results` rows by ascending distance, then skip
every row whose similarity `1.0 - distance` is strictly below `min_score`. -/
def search (env : EmbEnv) (st : EmbState) (dist : Vec → Vec → ℚ)
    (table : List ChunkRow) (query : String) (maxResults : Nat) (minScore : ℚ)
    (source : Option String) : Except Err (List SearchResult) :=
  match embedQuery env st query with
  | .error e => .error e
  | .ok qvec =>
    .ok ((chunkTopK dist qvec source maxResults table).filterMap fun p =>
      if 1 - p.2 < minScore then none else some (mkSearchResult p.1 (1 - p.2)))

/-- A row of `ORACLAW_MEMORIES`.  `created_at`, `accessed_at` and
`access_count` have the schema defaults `CURRENT_TIMESTAMP`,
`CURRENT_TIMESTAMP` and `0`; timestamps are modelled as integers. -/
structure MemoryRow where
  memory_id : String
  agent_id : String
  text : String
  importance : ℚ
  category : String
  embedding : Option Vec
  created_at : ℤ
  accessed_at : Option ℤ
  access_count : ℤ
deriving DecidableEq

/-- `MemoryService.remember`: embed the text (a raised exception propagates
and nothing is inserted), then `INSERT INTO ORACLAW_MEMORIES`.  `newId` is
the generated `uuid4`, `now` the insert-time schema default timestamp. -/
def remember (env : EmbEnv) (st : EmbState) (table : List MemoryRow)
    (newId : String) (now : ℤ) (text : String) (agent_id : String)
    (importance : ℚ) (category : String) : Except Err (List MemoryRow × String) :=
  match embedQuery env st text with
  | .error e => .error e
  | .ok emb =>
    .ok (table ++ [{ memory_id := newId
                     agent_id := agent_id
                     text := text
                     importance := importance
                     category := category
                     embedding := some emb
                     created_at := now
                     accessed_at := some now
                     access_count := 0 }], newId)

/-- Rows scored by `recall`'s store query: `agent_id = :agent_id AND
embedding IS NOT NULL`, paired with the backend cosine distance. -/
def memScored (dist : Vec → Vec → ℚ) (qvec : Vec) (agent : String)
    (table : List MemoryRow) : List (MemoryRow × ℚ) :=
  table.filterMap fun r =>
    match r.embedding with
    | none => none
    | some v => if r.agent_id = agent then some (r, dist v qvec) else none

/-- `ORDER BY distance ASC FETCH FIRST :max_results ROWS ONLY` in `recall`. -/
def memTopK (dist : Vec → Vec → ℚ) (qvec : Vec) (agent : String)
    (maxResults : Nat) (table : List MemoryRow) : List (MemoryRow × ℚ) :=
  (List.insertionSort (fun a b : MemoryRow × ℚ => a.2 ≤ b.2)
    (memScored dist qvec agent table)).take maxResults

/-- The fetched rows `recall` keeps: those of the store-side top K whose
similarity `1.0 - distance` is not strictly below `min_score`. -/
def recallKept (dist : Vec → Vec → ℚ) (qvec : Vec) (agent : String)
    (maxResults : Nat) (minScore : ℚ) (table : List MemoryRow) :
    List (MemoryRow × ℚ) :=
  (memTopK dist qvec agent maxResults table).filterMap fun p =>
    if 1 - p.2 < minScore then none else some p

/-- A result dict of `MemoryService.recall` (`created_at`/`accessed_at` are
stringified by the code; the model keeps their values). -/
structure MemResult where
  memory_id : String
  agent_id : String
  text : String
  importance : ℚ
  category : String
  score : ℚ
  created_at : ℤ
  accessed_at : Option ℤ
  access_count : ℤ
deriving DecidableEq

/-- One `recall` result dict, from a fetched row and its similarity. -/
def mkMemResult (r : MemoryRow) (similarity : ℚ) : MemResult :=
  { memory_id := r.memory_id
    agent_id := r.agent_id
    text := r.text
    importance := r.importance
    category := r.category
    score := round4 similarity
    created_at := r.created_at
    accessed_at := r.accessed_at
    access_count := r.access_count }

/-- The `UPDATE ORACLAW_MEMORIES SET accessed_at = CURRENT_TIMESTAMP,
access_count = access_count + 1` applied to one matched row. -/
def bumpAccess (now : ℤ) (r : MemoryRow) : MemoryRow :=
  { r with accessed_at := some now, access_count := r.access_count + 1 }

/-- `MemoryService.recall`: embed the query, fetch the agent-scoped top K
by ascending distance, drop rows below `min_score`, build the result dicts
from the fetched (pre-update) values, and then — only if some ids were
kept — run the access-bookkeeping `UPDATE` over `memory_id IN (...)`.
Returns the results together with the updated table. -/
def recallMemories (env : EmbEnv) (st : EmbState) (dist : Vec → Vec → ℚ)
    (table : List MemoryRow) (query : String) (agent : String)
    (maxResults : Nat) (minScore : ℚ) (now : ℤ) :
    Except Err (List MemResult × List MemoryRow) :=
  match embedQuery env st query with
  | .error e => .error e
  | .ok qvec =>
    let kept := recallKept dist qvec agent maxResults minScore table
    let results := kept.map fun p => mkMemResult p.1 (1 - p.2)
    let ids : List String := kept.map fun p => p.1.memory_id
    let newTable :=
      if ids.isEmpty then table
      else table.map fun r => if r.memory_id ∈ ids then bumpAccess now r else r
    .ok (results, newTable)

/-! ## JSON blobs and LOB-backed columns -/

/-- A decoded JSON value (the result of a successful `json.loads`). -/
inductive Json where
  | null
  | bool (b : Bool)
  | num (q : ℚ)
  | str (s : String)
  | arr (elems : List Json)
  | obj (fields : List (String × Json))

/-- What a nullable `CLOB` column holds after `_read_lob`: SQL `NULL`
(Python `None`), a materialized string, or an already-decoded non-string
value (the final `else` branch of `_row_to_session`/`_row_to_event`). -/
inductive RawVal where
  | null
  | text (s : String)
  | value (j : Json)

/-- The `session_data`/`event_data` decoding shared by `_row_to_session`
and `_row_to_event`: a string is parsed with `json.loads`, substituting
`{}` on `JSONDecodeError`; `None` becomes `{}`; anything else passes
through.  `parse` models `json.loads` (`none` = raised decode error). -/
def decodeBlob (parse : String → Option Json) : RawVal → Json
  | .text s => (parse s).getD (Json.obj [])
  | .null => Json.obj []
  | .value j => j

/-! ## Transcript service (`services/transcript_service.py`) -/

/-- A row of `ORACLAW_TRANSCRIPTS`; `created_at` has a `CURRENT_TIMESTAMP`
default and is modelled as a nullable integer timestamp. -/
structure EventRow where
  id : String
  session_id : String
  agent_id : String
  sequence_num : ℤ
  event_type : String
  event_data : RawVal
  created_at : Option ℤ

/-- `SELECT COALESCE(MAX(sequence_num), -1) + 1 FROM ORACLAW_TRANSCRIPTS
WHERE session_id = :session_id`. -/
def nextSeq (table : List EventRow) (sid : String) : ℤ :=
  (((table.filter fun e => e.session_id = sid).map
      fun e => e.sequence_num).maximum.unbot' (-1)) + 1

/-- `TranscriptService.append`: compute the next sequence number for the
session, then insert.  `newId` is the generated `uuid4`, `now` the insert
timestamp, `dataJson` the `json.dumps(event_data)` string.  Returns the
new table and the inserted row (whose fields make up the returned dict). -/
def appendEvent (table : List EventRow) (newId : String) (now : ℤ)
    (sid aid etype : String) (dataJson : String) : List EventRow × EventRow :=
  let row : EventRow :=
    { id := newId
      session_id := sid
      agent_id := aid
      sequence_num := nextSeq table sid
      event_type := etype
      event_data := .text dataJson
      created_at := some now }
  (table ++ [row], row)

/-- The rows fetched by `TranscriptService.get_events`:
`WHERE session_id = :session_id ORDER BY sequence_num ASC OFFSET :offset
ROWS FETCH NEXT :limit ROWS ONLY`. -/
def getEventsRows (table : List EventRow) (sid : String)
    (offset limit : Nat) : List EventRow :=
  (((List.insertionSort (fun a b : EventRow => a.sequence_num ≤ b.sequence_num)
      (table.filter fun e => e.session_id = sid)).drop offset).take limit)

/-- The event dict `_row_to_event` builds. -/
structure EventOut where
  id : String
  session_id : String
  agent_id : String
  sequence_num : ℤ
  event_type : String
  event_data : Json
  created_at : String

/-- `_row_to_event`: decode `event_data` (malformed or `NULL` data becomes
`{}`), stringify `created_at` (`str(row[6]) if row[6] else ""`). -/
def rowToEvent (parse : String → Option Json) (r : EventRow) : EventOut :=
  { id := r.id
    session_id := r.session_id
    agent_id := r.agent_id
    sequence_num := r.sequence_num
    event_type := r.event_type
    event_data := decodeBlob parse r.event_data
    created_at := match r.created_at with
      | some t => toString t
      | none => "" }

/-- `TranscriptService.get_events`. -/
def getEvents (parse : String → Option Json) (table : List EventRow)
    (sid : String) (offset limit : Nat) : List EventOut :=
  (getEventsRows table sid offset limit).map (rowToEvent parse)

/-- `TranscriptService.get_header`: `fetchone` of the rows with
`session_id = :session_id AND sequence_num = 0`, or `None`. -/
def getHeader (parse : String → Option Json) (table : List EventRow)
    (sid : String) : Option EventOut :=
  (table.find? fun e => e.session_id = sid && e.sequence_num = 0).map
    (rowToEvent parse)

/-! ## Session service (`services/session_service.py`) -/

/-- A row of `ORACLAW_SESSIONS` (`updated_at` is epoch milliseconds). -/
structure SessionRow where
  session_key : String
  session_id : String
  agent_id : String
  updated_at : ℤ
  session_data : RawVal
  channel : Option String
  label : Option String

/-- The session dict `_row_to_session` builds. -/
structure SessionOut where
  session_key : String
  session_id : String
  agent_id : String
  updated_at : ℤ
  session_data : Json
  channel : Option String
  label : Option String

/-- `_row_to_session` (same `{}`-substitution as `_row_to_event`). -/
def rowToSession (parse : String → Option Json) (r : SessionRow) : SessionOut :=
  { session_key := r.session_key
    session_id := r.session_id
    agent_id := r.agent_id
    updated_at := r.updated_at
    session_data := decodeBlob parse r.session_data
    channel := r.channel
    label := r.label }

/-- `SessionService.get_sessions`: all rows of the agent, ordered by
`updated_at DESC`, each converted by `_row_to_session`. -/
def getSessions (parse : String → Option Json) (table : List SessionRow)
    (agent : String) : List SessionOut :=
  (List.insertionSort (fun a b : SessionRow => b.updated_at ≤ a.updated_at)
    (table.filter fun r => r.agent_id = agent)).map (rowToSession parse)

/-- `SessionService.get_session`: `fetchone` by `session_key`, or `None`. -/
def getSession (parse : String → Option Json) (table : List SessionRow)
    (key : String) : Option SessionOut :=
  (table.find? fun r => r.session_key = key).map (rowToSession parse)

/-- The `session_key`s the `cap_count` `DELETE` keeps: the subquery
`SELECT session_key ... WHERE agent_id = :agent_id ORDER BY updated_at DESC
FETCH FIRST :max_count ROWS ONLY`. -/
def capKeepKeys (table : List SessionRow) (agent : String)
    (maxCount : Nat) : List String :=
  ((List.insertionSort (fun a b : SessionRow => b.updated_at ≤ a.updated_at)
      (table.filter fun r => r.agent_id = agent)).take maxCount).map
    fun r => r.session_key

/-- `SessionService.cap_count`: delete every session of the agent whose
key is not among the `max_count` most recently updated; the returned
number is `cursor.rowcount`. -/
def capCount (table : List SessionRow) (agent : String) (maxCount : Nat) :
    List SessionRow × Nat :=
  let keep : List String := capKeepKeys table agent maxCount
  (table.filter fun r => !(r.agent_id = agent && !keep.contains r.session_key),
   table.countP fun r => r.agent_id = agent && !keep.contains r.session_key)

/-! ## Vector codec (`_to_vector` in `services/memory_service.py`)

`_to_vector(embedding)` is `array.array('f', embedding)`: each Python float
(an IEEE double) is cast to the nearest IEEE single-precision value, and
reading the stored vector back (`list(row[0])`) widens those singles to
doubles exactly.  The cast is modelled by `f32round` below over `ℚ`:
round-to-nearest, ties-to-even, with gradual underflow below `2^(-126)`
(subnormal spacing `2^(-149)`) and overflow to `±inf` — represented as
`none`, since an infinity is not a rational — at magnitudes reaching
`2^128`.  No numeric input raises. -/

/-- Fuel-driven floor of `log2` on naturals (`floorLog2 0 = 0`). -/
def natLog2F : Nat → Nat → Nat
  | 0, _ => 0
  | fuel + 1, n => if n ≤ 1 then 0 else natLog2F fuel (n / 2) + 1

/-- `floorLog2 n` is `⌊log2 n⌋` for `n ≥ 1`. -/
def floorLog2 (n : Nat) : Nat := natLog2F n n

/-- The exponent `e` with `2^e ≤ q < 2^(e+1)`, for positive `q`: a
candidate from the numerator/denominator bit lengths, corrected by at most
one in each direction. -/
def ratFloorLog2 (q : ℚ) : ℤ :=
  let c : ℤ := (floorLog2 q.num.natAbs : ℤ) - (floorLog2 q.den : ℤ)
  if (2 : ℚ) ^ (c + 1) ≤ q then c + 1
  else if q < (2 : ℚ) ^ c then c - 1
  else c

/-- The nearest float32 to a rational (ties to even): `some` of the exact
rounded value, or `none` when the rounded magnitude reaches `2^128` and the
stored single is `±inf`. -/
def f32round (q : ℚ) : Option ℚ :=
  if q = 0 then some 0
  else
    let a : ℚ := |q|
    let e : ℤ := ratFloorLog2 a
    let scale : ℤ := max (e - 23) (-149)
    let m : ℤ := roundHalfEven (a / (2 : ℚ) ^ scale)
    if (2 : ℚ) ^ (128 : ℤ) ≤ (m : ℚ) * (2 : ℚ) ^ scale then none
    else some ((if q < 0 then (-m : ℤ) else m) * (2 : ℚ) ^ scale)

/-- `_to_vector`: the element-wise float32 cast done by
`array.array('f', embedding)` (`none` = some element stored as `±inf`). -/
def toVector (embedding : List ℚ) : Option (List ℚ) :=
  embedding.mapM f32round

/-- Reading a stored vector back (`list(row[0])`): float32 values widen to
doubles exactly, so the decoded sequence is the stored one. -/
def fromVector (v : List ℚ) : List ℚ := v

/-! ## Theorems -/

/-- `_test_db_embedding` succeeds exactly when the probe query returns a
row holding a non-null vector. -/
theorem testDbEmbedding_eq_true_iff (env : EmbEnv) :
    testDbEmbedding env = true ↔
      ∃ v, env.vectorEmbedding "test" = .ok (some (some v)) := by
  unfold testDbEmbedding
  rcases hv : env.vectorEmbedding "test" with e | o
  · simp
  · rcases o with _ | ov
    · simp
    · rcases ov with _ | v
      · simp
      · simp

/-- C2: `initialize` commits to database mode iff the configured model is
registered (`check_onnx_loaded`), the synchronous connection can be made,
and the test `VECTOR_EMBEDDING` call on the fixed string `'test'` returns a
non-null vector; otherwise it falls back to python mode by loading the
local model, and if that load also raises, the error propagates with
`_mode` left unset, so every later `embed_texts` call raises. -/
theorem c2_init_mode_selection (env : EmbEnv) :
    ((initEmbedding env).1.mode = some EmbMode.database ↔
      (checkOnnxLoaded env = true ∧ env.connect = .ok () ∧
        ∃ v, env.vectorEmbedding "test" = .ok (some (some v)))) ∧
    (¬(checkOnnxLoaded env = true ∧ env.connect = .ok () ∧
        ∃ v, env.vectorEmbedding "test" = .ok (some (some v))) →
      ((env.loadModel = .ok () →
          initEmbedding env = (⟨some EmbMode.python, false, true⟩, none)) ∧
       (∀ e, env.loadModel = .error e →
          (initEmbedding env).1.mode = none ∧
          (initEmbedding env).2 = some e ∧
          ∀ texts, embedTexts env (initEmbedding env).1 texts =
            .error "EmbeddingService not initialized"))) := by
  have htest := testDbEmbedding_eq_true_iff env
  rcases hc : checkOnnxLoaded env with _ | _ <;>
    rcases hconn : env.connect with econn | ⟨⟩ <;>
    rcases ht : testDbEmbedding env with _ | _ <;>
    rcases hl : env.loadModel with el | ⟨⟩ <;>
    rw [ht] at htest <;>
    simp only [Bool.false_eq_true, Bool.true_eq_false, false_iff, true_iff,
      not_exists] at htest <;>
    simp [initEmbedding, hc, hconn, ht, hl, embedTexts, htest]

/-- Concrete environment committing to database mode. -/
def envDb : EmbEnv :=
  { regQuery := .ok (some 1)
    connect := .ok ()
    vectorEmbedding := fun _ => .ok (some (some [1]))
    loadModel := .error "no local model"
    modelEncode := fun _ => .error "no local model" }

/-- Concrete environment where the probe and the local load both fail. -/
def envFail : EmbEnv :=
  { regQuery := .error "db down"
    connect := .error "db down"
    vectorEmbedding := fun _ => .error "db down"
    loadModel := .error "no sentence-transformers"
    modelEncode := fun _ => .error "no sentence-transformers" }

/-- Witness for C2: the database-mode environment really initializes in
database mode, and the doubly-failing one raises with `_mode` unset. -/
theorem c2_init_mode_selection_witness :
    (initEmbedding envDb).1.mode = some EmbMode.database ∧
    (initEmbedding envFail).1.mode = none ∧
    (initEmbedding envFail).2 = some "no sentence-transformers" ∧
    embedTexts envFail (initEmbedding envFail).1 ["x"] =
      .error "EmbeddingService not initialized" := by
  refine ⟨(c2_init_mode_selection envDb).1.mpr ⟨rfl, rfl, [1], rfl⟩, ?_⟩
  have h := ((c2_init_mode_selection envFail).2 (by
    rintro ⟨hc, -, -⟩
    exact absurd hc (by decide))).2 "no sentence-transformers" rfl
  exact ⟨h.1, h.2.1, h.2.2 ["x"]⟩

/-- The service state after a database-mode `initialize`. -/
def stDatabase : EmbState := ⟨some EmbMode.database, true, false⟩

/-- The service state after a python-mode `initialize`. -/
def stPython : EmbState := ⟨some EmbMode.python, false, true⟩

/-- Environment whose `VECTOR_EMBEDDING` query fetches a row with a `NULL`
vector for every text. -/
def envNullVec : EmbEnv :=
  { regQuery := .ok (some 1)
    connect := .ok ()
    vectorEmbedding := fun _ => .ok (some none)
    loadModel := .error "unused"
    modelEncode := fun _ => .error "unused" }

/-- A concrete chunk dict. -/
def chunkC1 : Chunk :=
  { id := "c1"
    path := "a.py"
    source := none
    start_line := 1
    end_line := 1
    hash := none
    model := none
    text := "hello" }

/-- Counterexample to C1: in database mode, when the `VECTOR_EMBEDDING`
query fetches a row whose vector column is `NULL`, `store_chunk` does not
abort — it persists the chunk with the silently substituted all-zero
384-dimensional vector. -/
theorem c1_zero_vector_counterexample :
    storeChunk envNullVec stDatabase [] chunkC1 =
      .ok ([chunkRowOf chunkC1 (List.replicate 384 (0 : ℚ))], "c1") ∧
    (chunkRowOf chunkC1 (List.replicate 384 (0 : ℚ))).embedding =
      some (List.replicate 384 (0 : ℚ)) := by
  exact ⟨rfl, rfl⟩

/-- C1 (amended): a raised embedding failure during `store_chunk` or
`remember` aborts that write — the exception propagates and no row is
written; but this covers only raised exceptions: in database mode a
`VECTOR_EMBEDDING` query that fetches a `NULL` vector makes the write
proceed with an all-zero 384-dimensional vector substituted silently. -/
theorem c1_embed_failure_aborts_write (env : EmbEnv) (st : EmbState)
    (table : List ChunkRow) (chunk : Chunk) (mtable : List MemoryRow)
    (newId : String) (now : ℤ) (text agent category : String)
    (importance : ℚ) (e : Err) :
    (embedQuery env st chunk.text = .error e →
      storeChunk env st table chunk = .error e) ∧
    (embedQuery env st text = .error e →
      remember env st mtable newId now text agent importance category =
        .error e) ∧
    (st.mode = some EmbMode.database →
      env.vectorEmbedding (chunk.text.take 512) = .ok (some none) →
      storeChunk env st table chunk =
        .ok (upsertChunk table (chunkRowOf chunk (List.replicate 384 (0 : ℚ))),
          chunk.id)) := by
  refine ⟨fun h => ?_, fun h => ?_, fun hmode hq => ?_⟩
  · unfold storeChunk
    rw [h]
  · unfold remember
    rw [h]
  · have hq2 : embedTextsDbSync env [chunk.text] =
        .ok [List.replicate 384 (0 : ℚ)] := by
      unfold embedTextsDbSync
      rw [List.mapM_cons, List.mapM_nil]
      simp only [hq]
      rfl
    unfold storeChunk embedQuery embedTexts
    rw [hmode, hq2]

/-- Witness for C1's amended theorem: with a dead backend in database mode,
both writes abort with the raised error. -/
theorem c1_embed_failure_aborts_write_witness :
    storeChunk envFail stDatabase [] chunkC1 = .error "db down" ∧
    remember envFail stDatabase [] "m1" 0 "fact" "default" (7 / 10) "other" =
      .error "db down" := by
  have h := c1_embed_failure_aborts_write envFail stDatabase [] chunkC1 []
    "m1" 0 "fact" "default" "other" (7 / 10) "db down"
  exact ⟨h.1 rfl, h.2.1 rfl⟩

/-- `(s.take n).take n = s.take n` for strings. -/
theorem strTake_take (s : String) (n : Nat) : (s.take n).take n = s.take n := by
  apply String.ext
  rw [String.data_take, String.data_take, List.take_take, min_self]

/-- Taking then dropping at the same index reassembles a string. -/
theorem strTake_append_drop (s : String) (n : Nat) :
    s.take n ++ s.drop n = s := by
  apply String.ext
  rw [String.data_append, String.data_take, String.data_drop,
    List.take_append_drop]

/-- The length of `s.take n` is `min n s.length`. -/
theorem strLength_take (s : String) (n : Nat) :
    (s.take n).length = min n s.length := by
  show (s.take n).data.length = min n s.data.length
  rw [String.data_take, List.length_take]

/-- C3 (amended): in database mode the text bound into the embedding query
is silently replaced by its 512-character prefix — pre-truncating the
input changes nothing and truncation is not an error path — while python
mode hands the untruncated texts to the local model. -/
theorem c3_truncation_database_only (env : EmbEnv) (t : String)
    (texts : List String) (h : 512 < t.length) :
    embedTextsDbSync env (t :: texts) =
      embedTextsDbSync env (t.take 512 :: texts) ∧
    (t.take 512).length = 512 ∧
    t.take 512 ++ t.drop 512 = t ∧
    embedTextsPythonSync env (t :: texts) = env.modelEncode (t :: texts) := by
  refine ⟨?_, ?_, strTake_append_drop t 512, rfl⟩
  · unfold embedTextsDbSync
    rw [List.mapM_cons, List.mapM_cons, strTake_take]
  · rw [strLength_take]
    exact min_eq_left (le_of_lt h)

/-- A 513-character text. -/
def text513 : String := String.mk (List.replicate 513 'a')

/-- A local model that records (as a 1-dimensional vector) the length of
each text it was asked to embed. -/
def envLen : EmbEnv :=
  { regQuery := .ok none
    connect := .error "unused"
    vectorEmbedding := fun _ => .error "unused"
    loadModel := .ok ()
    modelEncode := fun ts => .ok (ts.map fun t => [(t.length : ℚ)]) }

/-- `envLen`'s python mode reports each submitted text's length. -/
theorem pythonSync_envLen (ts : List String) :
    embedTextsPythonSync envLen ts = .ok (ts.map fun t => [(t.length : ℚ)]) :=
  rfl

/-- Witness for C3's amended theorem at a concrete overlong text. -/
theorem c3_truncation_database_only_witness :
    embedTextsDbSync envLen (text513 :: []) =
      embedTextsDbSync envLen (text513.take 512 :: []) ∧
    (text513.take 512).length = 512 ∧
    text513.take 512 ++ text513.drop 512 = text513 ∧
    embedTextsPythonSync envLen (text513 :: []) =
      envLen.modelEncode (text513 :: []) := by
  have hlen : 512 < text513.length := by
    have : text513.length = (List.replicate 513 'a').length := rfl
    rw [this, List.length_replicate]
    decide
  exact c3_truncation_database_only envLen text513 [] hlen

/-- Counterexample to C3: in python mode the text submitted to the local
model is the full input, not its 512-character prefix — the recording
model sees a length-513 text. -/
theorem c3_python_full_text_counterexample :
    embedTextsPythonSync envLen [text513] = .ok [[(513 : ℚ)]] ∧
    embedTextsPythonSync envLen [text513.take 512] = .ok [[(512 : ℚ)]] ∧
    ((513 : ℚ)) ≠ ((512 : ℚ)) := by
  have h513 : text513.length = 513 := by
    have : text513.length = (List.replicate 513 'a').length := rfl
    rw [this, List.length_replicate]
  have h512 : (text513.take 512).length = 512 := by
    rw [strLength_take, h513]
    decide
  refine ⟨?_, ?_, by norm_num⟩
  · rw [pythonSync_envLen, List.map_cons, List.map_nil, h513]
    simp only [Nat.cast_ofNat]
  · rw [pythonSync_envLen, List.map_cons, List.map_nil, h512]
    simp only [Nat.cast_ofNat]

/-- Whether storing a chunk succeeds; in this model `store_chunk` fails
exactly when embedding the chunk's text raises. -/
def embedOk (env : EmbEnv) (st : EmbState) (chunk : Chunk) : Bool :=
  match embedQuery env st chunk.text with
  | .ok _ => true
  | .error _ => false

/-- The error entry a failing chunk contributes, if any. -/
def chunkErr (env : EmbEnv) (st : EmbState) (chunk : Chunk) :
    Option (String × Err) :=
  match embedQuery env st chunk.text with
  | .ok _ => none
  | .error e => some (chunk.id, e)

/-- The table update a successful chunk performs (a failing chunk leaves
the table alone). -/
def chunkApply (env : EmbEnv) (st : EmbState) (t : List ChunkRow)
    (chunk : Chunk) : List ChunkRow :=
  match embedQuery env st chunk.text with
  | .ok emb => upsertChunk t (chunkRowOf chunk emb)
  | .error _ => t

/-- Accumulator-generalized unrolling of the `store_chunks_batch` loop. -/
theorem batch_foldl (env : EmbEnv) (st : EmbState) (chunks : List Chunk) :
    ∀ (t : List ChunkRow) (n : Nat) (errs : List (String × Err)),
      chunks.foldl (batchStep env st) (t, n, errs) =
        (chunks.foldl (chunkApply env st) t,
         n + chunks.countP (embedOk env st),
         errs ++ chunks.filterMap (chunkErr env st)) := by
  induction chunks with
  | nil => intro t n errs; simp
  | cons c l ih =>
    intro t n errs
    rw [List.foldl_cons, List.foldl_cons]
    rcases hq : embedQuery env st c.text with e | emb
    · have hstep : batchStep env st (t, n, errs) c =
          (t, n, errs ++ [(c.id, e)]) := by
        unfold batchStep storeChunk
        rw [hq]
      have hap : chunkApply env st t c = t := by
        unfold chunkApply; rw [hq]
      have hok : embedOk env st c = false := by
        unfold embedOk; rw [hq]
      have herr : chunkErr env st c = some (c.id, e) := by
        unfold chunkErr; rw [hq]
      rw [hstep, ih, hap, List.countP_cons, hok, List.filterMap_cons, herr]
      simp
    · have hstep : batchStep env st (t, n, errs) c =
          (upsertChunk t (chunkRowOf c emb), n + 1, errs) := by
        unfold batchStep storeChunk
        rw [hq]
      have hap : chunkApply env st t c = upsertChunk t (chunkRowOf c emb) := by
        unfold chunkApply; rw [hq]
      have hok : embedOk env st c = true := by
        unfold embedOk; rw [hq]
      have herr : chunkErr env st c = none := by
        unfold chunkErr; rw [hq]
      rw [hstep, ih, hap, List.countP_cons, hok, List.filterMap_cons, herr]
      simp
      omega

/-- Successes and failures partition the batch. -/
theorem batch_count (env : EmbEnv) (st : EmbState) (chunks : List Chunk) :
    chunks.countP (embedOk env st) +
      (chunks.filterMap (chunkErr env st)).length = chunks.length := by
  induction chunks with
  | nil => rfl
  | cons c l ih =>
    rcases hq : embedQuery env st c.text with e | emb
    · have hok : embedOk env st c = false := by
        unfold embedOk; rw [hq]
      have herr : chunkErr env st c = some (c.id, e) := by
        unfold chunkErr; rw [hq]
      simp only [List.filterMap_cons, herr, List.length_cons]
      rw [List.countP_cons_of_neg]
      · omega
      · simp [hok]
    · have hok : embedOk env st c = true := by
        unfold embedOk; rw [hq]
      have herr : chunkErr env st c = none := by
        unfold chunkErr; rw [hq]
      simp only [List.filterMap_cons, herr, List.length_cons]
      rw [List.countP_cons_of_pos]
      · omega
      · exact hok

/-- C7: `store_chunks_batch` processes the chunks sequentially in input
order; a failing chunk contributes its `(id, error)` entry to `errors` and
the loop continues, already-stored chunks are not rolled back (the final
table is the fold of exactly the successful chunks' upserts, in input
order, over the starting table), `stored` counts the successful chunks,
and `stored + len(errors) = len(chunks)`. -/
theorem c7_batch_partial_failure (env : EmbEnv) (st : EmbState)
    (table : List ChunkRow) (chunks : List Chunk) :
    (storeChunksBatch env st table chunks).2.1 +
        (storeChunksBatch env st table chunks).2.2.length = chunks.length ∧
    (storeChunksBatch env st table chunks).2.1 =
      chunks.countP (embedOk env st) ∧
    (storeChunksBatch env st table chunks).2.2 =
      chunks.filterMap (chunkErr env st) ∧
    (storeChunksBatch env st table chunks).1 =
      chunks.foldl (chunkApply env st) table := by
  have h := batch_foldl env st chunks table 0 []
  unfold storeChunksBatch
  rw [h]
  refine ⟨?_, by simp, by simp, rfl⟩
  simpa using batch_count env st chunks

/-- Elementwise-fixed inputs round-trip through the codec unchanged. -/
theorem toVector_of_rep (v : List ℚ) (hrep : ∀ x ∈ v, f32round x = some x) :
    toVector v = some v := by
  induction v with
  | nil => rfl
  | cons a l ih =>
    unfold toVector
    rw [List.mapM_cons, hrep a (by simp)]
    have hl := ih fun x hx => hrep x (by simp [hx])
    unfold toVector at hl
    rw [hl]
    rfl

/-- C8: for every float32-representable sequence of length at most 4096,
decoding the storage vector produced by encoding it gives back a sequence
of the same length equal to it within `1e-6` per element (here: exactly),
and encoding the empty sequence succeeds and decodes to the empty
sequence. -/
theorem c8_codec_round_trip (v : List ℚ) (hlen : v.length ≤ 4096)
    (hrep : ∀ x ∈ v, f32round x = some x) :
    (toVector [] = some [] ∧ fromVector [] = ([] : List ℚ)) ∧
    ∃ w, toVector v = some w ∧ fromVector w = v ∧ w.length = v.length ∧
      ∀ i (h : i < w.length) (h' : i < v.length),
        |w[i] - v[i]| ≤ 1 / 1000000 := by
  refine ⟨⟨rfl, rfl⟩, v, toVector_of_rep v hrep, rfl, rfl, ?_⟩
  intro i h h'
  rw [sub_self, abs_zero]
  norm_num

/-- `0` is float32-representable. -/
theorem f32round_zero : f32round 0 = some 0 := by
  unfold f32round
  rw [if_pos rfl]

/-- Witness for C8 on the concrete vector `[0]`. -/
theorem c8_codec_round_trip_witness :
    toVector [(0 : ℚ)] = some [(0 : ℚ)] ∧ toVector [] = some [] := by
  have h := c8_codec_round_trip [(0 : ℚ)] (by norm_num)
    (by intro x hx; rw [List.mem_singleton] at hx; rw [hx]; exact f32round_zero)
  obtain ⟨⟨hnil, -⟩, w, hw, hwv, -⟩ := h
  exact ⟨hw.trans (congrArg some hwv), hnil⟩

/-- Members of `recallKept` are members of the store-side top K that pass
the threshold. -/
theorem recallKept_subset (dist : Vec → Vec → ℚ) (qvec : Vec) (agent : String)
    (maxResults : Nat) (minScore : ℚ) (table : List MemoryRow)
    (p : MemoryRow × ℚ)
    (hp : p ∈ recallKept dist qvec agent maxResults minScore table) :
    p ∈ memTopK dist qvec agent maxResults table ∧ minScore ≤ 1 - p.2 := by
  unfold recallKept at hp
  rw [List.mem_filterMap] at hp
  obtain ⟨a, ha, hfa⟩ := hp
  by_cases hc : 1 - a.2 < minScore
  · rw [if_pos hc] at hfa
    cases hfa
  · rw [if_neg hc] at hfa
    cases hfa
    exact ⟨ha, not_lt.mp hc⟩

/-- C4: every `search` result comes from the store-side top-`max_results`
rows (ascending cosine distance) and has similarity `1.0 - distance` at
least `min_score`, and at most `max_results` results are returned; a
candidate outside the store-side top K is never returned even if it would
pass the threshold.  The same holds for `recall`. -/
theorem c4_threshold_after_topk (env : EmbEnv) (st : EmbState)
    (dist : Vec → Vec → ℚ) (ctable : List ChunkRow) (mtable : List MemoryRow)
    (query agent : String) (maxResults : Nat) (minScore : ℚ)
    (source : Option String) (results : List SearchResult)
    (mresults : List MemResult) (newTable : List MemoryRow) (now : ℤ) :
    (search env st dist ctable query maxResults minScore source =
        .ok results →
      ∃ qvec, embedQuery env st query = .ok qvec ∧
        results.length ≤ maxResults ∧
        ∀ res ∈ results, ∃ p ∈ chunkTopK dist qvec source maxResults ctable,
          minScore ≤ 1 - p.2 ∧ res = mkSearchResult p.1 (1 - p.2)) ∧
    (recallMemories env st dist mtable query agent maxResults minScore now =
        .ok (mresults, newTable) →
      ∃ qvec, embedQuery env st query = .ok qvec ∧
        mresults.length ≤ maxResults ∧
        ∀ res ∈ mresults, ∃ p ∈ memTopK dist qvec agent maxResults mtable,
          minScore ≤ 1 - p.2 ∧ res = mkMemResult p.1 (1 - p.2)) := by
  constructor
  · intro hok
    unfold search at hok
    rcases hq : embedQuery env st query with e | qvec
    · rw [hq] at hok
      cases hok
    · rw [hq] at hok
      refine ⟨qvec, rfl, ?_, ?_⟩
      · cases hok
        calc ((chunkTopK dist qvec source maxResults ctable).filterMap _).length
            ≤ (chunkTopK dist qvec source maxResults ctable).length :=
              List.length_filterMap_le _ _
          _ ≤ maxResults := by
              unfold chunkTopK
              exact List.length_take_le _ _
      · cases hok
        intro res hres
        rw [List.mem_filterMap] at hres
        obtain ⟨p, hp, hfp⟩ := hres
        by_cases hc : 1 - p.2 < minScore
        · rw [if_pos hc] at hfp
          cases hfp
        · rw [if_neg hc] at hfp
          cases hfp
          exact ⟨p, hp, not_lt.mp hc, rfl⟩
  · intro hok
    unfold recallMemories at hok
    rcases hq : embedQuery env st query with e | qvec
    · rw [hq] at hok
      cases hok
    · rw [hq] at hok
      simp only at hok
      have hres : mresults =
          (recallKept dist qvec agent maxResults minScore mtable).map
            fun p => mkMemResult p.1 (1 - p.2) := by
        cases hok
        rfl
      refine ⟨qvec, rfl, ?_, ?_⟩
      · rw [hres, List.length_map]
        calc (recallKept dist qvec agent maxResults minScore mtable).length
            ≤ (memTopK dist qvec agent maxResults mtable).length :=
              List.length_filterMap_le _ _
          _ ≤ maxResults := by
              unfold memTopK
              exact List.length_take_le _ _
      · intro res hmem
        rw [hres, List.mem_map] at hmem
        obtain ⟨p, hp, hpe⟩ := hmem
        obtain ⟨htop, hscore⟩ :=
          recallKept_subset dist qvec agent maxResults minScore mtable p hp
        exact ⟨p, htop, hscore, hpe.symm⟩

/-- A backend distance operator that reports distance `0` always. -/
def dist0 : Vec → Vec → ℚ := fun _ _ => 0

/-- A concrete stored chunk row. -/
def row0 : ChunkRow :=
  { chunk_id := "c1"
    path := "a.py"
    source := none
    start_line := 1
    end_line := 1
    hash := ""
    model := ""
    text := "hello"
    embedding := some [1] }

/-- A concrete stored memory row. -/
def memRow0 : MemoryRow :=
  { memory_id := "m1"
    agent_id := "default"
    text := "fact"
    importance := 7 / 10
    category := "other"
    embedding := some [1]
    created_at := 5
    accessed_at := some 5
    access_count := 0 }

/-- Witness for C4 on a one-row table with distance `0`. -/
theorem c4_threshold_after_topk_witness :
    (∃ qvec, embedQuery envDb stDatabase "q" = .ok qvec ∧
      [mkSearchResult row0 (1 - 0)].length ≤ 5 ∧
      ∀ res ∈ [mkSearchResult row0 (1 - 0)],
        ∃ p ∈ chunkTopK dist0 qvec none 5 [row0],
          (3 : ℚ) / 10 ≤ 1 - p.2 ∧ res = mkSearchResult p.1 (1 - p.2)) ∧
    (∃ qvec, embedQuery envDb stDatabase "q" = .ok qvec ∧
      [mkMemResult memRow0 (1 - 0)].length ≤ 5 ∧
      ∀ res ∈ [mkMemResult memRow0 (1 - 0)],
        ∃ p ∈ memTopK dist0 qvec "default" 5 [memRow0],
          (3 : ℚ) / 10 ≤ 1 - p.2 ∧ res = mkMemResult p.1 (1 - p.2)) := by
  have hcond : ¬((1 : ℚ) - 0 < 3 / 10) := by norm_num
  have h := c4_threshold_after_topk envDb stDatabase dist0 [row0] [memRow0]
    "q" "default" 5 (3 / 10) none [mkSearchResult row0 (1 - 0)]
    [mkMemResult memRow0 (1 - 0)] [bumpAccess 7 memRow0] 7
  constructor
  · refine h.1 ?_
    have hq : embedQuery envDb stDatabase "q" = .ok [1] := rfl
    have htop : chunkTopK dist0 [1] none 5 [row0] = [(row0, 0)] := rfl
    simp only [search, hq, htop, List.filterMap_cons, List.filterMap_nil,
      if_neg hcond]
  · refine h.2 ?_
    have hq : embedQuery envDb stDatabase "q" = .ok [1] := rfl
    have hkept : recallKept dist0 [1] "default" 5 (3 / 10) [memRow0] =
        [(memRow0, 0)] := by
      have htop : memTopK dist0 [1] "default" 5 [memRow0] = [(memRow0, 0)] := rfl
      simp only [recallKept, htop, List.filterMap_cons, List.filterMap_nil,
        if_neg hcond]
    simp only [recallMemories, hq, hkept]
    rfl

/-- One queued `append` call of a single writer. -/
structure AppendOp where
  newId : String
  now : ℤ
  sid : String
  aid : String
  etype : String
  dataJson : String

/-- A single writer running a sequence of `append` calls in order. -/
def applyAppends (table : List EventRow) (ops : List AppendOp) : List EventRow :=
  ops.foldl
    (fun t op => (appendEvent t op.newId op.now op.sid op.aid op.etype op.dataJson).1)
    table

/-- `COALESCE(MAX(...), -1)` of a list whose last element dominates. -/
theorem unbotMax_concat (l : List ℤ) (a : ℤ) (h : ∀ x ∈ l, x ≤ a) :
    ((l ++ [a]).maximum.unbot' (-1)) = a := by
  have hle : l.maximum ≤ (a : WithBot ℤ) := by
    rcases hm : l.maximum with _ | m
    · exact bot_le
    · have hmem : m ∈ l := List.maximum_mem hm
      have hsome : (some m : WithBot ℤ) = (m : WithBot ℤ) := rfl
      rw [hsome]
      exact_mod_cast h m hmem
  rw [List.maximum_concat, sup_eq_right.mpr hle]
  rfl

/-- `COALESCE(MAX(...), -1) + 1` over the sequence numbers `0..k-1` is `k`. -/
theorem maxSeqRange (k : Nat) :
    (((List.range k).map Int.ofNat).maximum.unbot' (-1)) + 1 = Int.ofNat k := by
  cases k with
  | zero => rfl
  | succ n =>
    rw [List.range_succ, List.map_append, List.map_singleton]
    have h : ∀ x ∈ (List.range n).map Int.ofNat, x ≤ Int.ofNat n := by
      intro x hx
      rw [List.mem_map] at hx
      obtain ⟨i, hi, rfl⟩ := hx
      rw [List.mem_range] at hi
      simp only [Int.ofNat_eq_natCast]
      omega
    rw [unbotMax_concat _ _ h]
    simp only [Int.ofNat_eq_natCast]
    omega

/-- Appending to a session whose stored sequence numbers are exactly
`0..k-1` (in insertion order) extends them to `0..k`; appends to other
sessions leave them untouched. -/
theorem appends_seq_range (sid : String) (ops : List AppendOp) :
    ∀ (table : List EventRow) (k : Nat),
      ((table.filter fun e => e.session_id = sid).map fun e => e.sequence_num) =
        ((List.range k).map Int.ofNat) →
      (((applyAppends table ops).filter fun e => e.session_id = sid).map
          fun e => e.sequence_num) =
        ((List.range (k + ops.countP fun op => decide (op.sid = sid))).map
          Int.ofNat) := by
  induction ops with
  | nil =>
    intro table k hk
    simpa [applyAppends] using hk
  | cons op l ih =>
    intro table k hk
    have happ : applyAppends table (op :: l) =
        applyAppends
          (appendEvent table op.newId op.now op.sid op.aid op.etype op.dataJson).1
          l := rfl
    rw [happ]
    by_cases hs : op.sid = sid
    · have hnext : nextSeq table op.sid = Int.ofNat k := by
        unfold nextSeq
        rw [hs, hk]
        have := maxSeqRange k
        omega
      have hfilter :
          (((appendEvent table op.newId op.now op.sid op.aid op.etype
              op.dataJson).1.filter fun e => e.session_id = sid).map
            fun e => e.sequence_num) =
          ((List.range (k + 1)).map Int.ofNat) := by
        unfold appendEvent
        rw [List.filter_append, List.map_append, hk]
        have hrow : (List.filter (fun e => decide (e.session_id = sid))
            [{ id := op.newId, session_id := op.sid, agent_id := op.aid,
               sequence_num := nextSeq table op.sid, event_type := op.etype,
               event_data := .text op.dataJson,
               created_at := some op.now : EventRow}]) =
            [{ id := op.newId, session_id := op.sid, agent_id := op.aid,
               sequence_num := nextSeq table op.sid, event_type := op.etype,
               event_data := .text op.dataJson, created_at := some op.now }] := by
          simp [List.filter_singleton, hs]
        rw [hrow, List.map_singleton, hnext, List.range_succ, List.map_append,
          List.map_singleton]
      have := ih _ (k + 1) hfilter
      rw [this, List.countP_cons_of_pos]
      · congr 2
        omega
      · simpa using hs
    · have hfilter :
          (((appendEvent table op.newId op.now op.sid op.aid op.etype
              op.dataJson).1.filter fun e => e.session_id = sid).map
            fun e => e.sequence_num) =
          ((List.range k).map Int.ofNat) := by
        unfold appendEvent
        rw [List.filter_append]
        have hrow : (List.filter (fun e => decide (e.session_id = sid))
            [{ id := op.newId, session_id := op.sid, agent_id := op.aid,
               sequence_num := nextSeq table op.sid, event_type := op.etype,
               event_data := .text op.dataJson,
               created_at := some op.now : EventRow}]) = [] := by
          simp [List.filter_singleton, hs]
        rw [hrow, List.append_nil]
        exact hk
      have := ih _ k hfilter
      rw [this, List.countP_cons_of_neg]
      simpa using hs

/-- A list of event rows whose sequence numbers read `0..n-1` in order is
sorted by `sequence_num`. -/
theorem sorted_of_seq_range (l : List EventRow) (n : Nat)
    (hmap : (l.map fun e => e.sequence_num) = (List.range n).map Int.ofNat) :
    List.Sorted (fun a b : EventRow => a.sequence_num ≤ b.sequence_num) l := by
  have hp : List.Pairwise (· ≤ ·) ((List.range n).map Int.ofNat) := by
    refine List.Pairwise.map Int.ofNat ?_ (List.pairwise_lt_range n)
    intro a b hab
    simp only [Int.ofNat_eq_natCast]
    omega
  rw [← hmap, List.pairwise_map] at hp
  exact hp

/-- C6: `append` assigns sequence number `0` to a session with no events
and `max + 1` otherwise, and for a single writer starting from a state
with no events for the session, the sequence numbers `get_events` returns
(offset 0) are exactly `0, 1, 2, ...` — strictly increasing, gap-free,
ascending, capped by `limit`. -/
theorem c6_transcript_monotonic (parse : String → Option Json)
    (table : List EventRow) (newId : String) (now : ℤ)
    (sid aid etype dataJson : String)
    (init : List EventRow) (ops : List AppendOp) (limit : Nat)
    (hinit : init.filter (fun e => e.session_id = sid) = []) :
    ((table.filter (fun e => e.session_id = sid) = [] →
       (appendEvent table newId now sid aid etype dataJson).2.sequence_num = 0) ∧
     (∀ m : ℤ, (((table.filter fun e => e.session_id = sid).map
           fun e => e.sequence_num).maximum = (m : WithBot ℤ)) →
       (appendEvent table newId now sid aid etype dataJson).2.sequence_num =
         m + 1)) ∧
    ((getEvents parse (applyAppends init ops) sid 0 limit).map
        (fun e => e.sequence_num) =
      (List.range (min limit (ops.countP fun op => decide (op.sid = sid)))).map
        Int.ofNat) := by
  refine ⟨⟨?_, ?_⟩, ?_⟩
  · intro hempty
    show nextSeq table sid = 0
    unfold nextSeq
    rw [hempty]
    rfl
  · intro m hm
    show nextSeq table sid = m + 1
    unfold nextSeq
    rw [hm]
    rfl
  · have hmap := appends_seq_range sid ops init 0 (by rw [hinit]; rfl)
    rw [Nat.zero_add] at hmap
    have hsorted := sorted_of_seq_range _ _ hmap
    unfold getEvents getEventsRows
    rw [hsorted.insertionSort_eq, List.drop_zero, List.map_map]
    have hcomp : ((fun e : EventOut => e.sequence_num) ∘ rowToEvent parse) =
        fun e : EventRow => e.sequence_num := rfl
    rw [hcomp, List.map_take, hmap, ← List.map_take, List.take_range]

/-- Three single-writer appends: header and message to `s1`, then a header
to `s2`. -/
def opsC6 : List AppendOp :=
  [⟨"e0", 0, "s1", "agent", "header", "null"⟩,
   ⟨"e1", 1, "s1", "agent", "message", "null"⟩,
   ⟨"e2", 2, "s2", "agent", "header", "null"⟩]

/-- Witness for C6: on an empty store the first append gets sequence 0,
and after the three appends `get_events` for `s1` returns sequence numbers
`[0, 1]`. -/
theorem c6_transcript_monotonic_witness :
    (appendEvent [] "e0" 0 "s1" "agent" "header" "null").2.sequence_num = 0 ∧
    ((getEvents (fun _ => none) (applyAppends [] opsC6) "s1" 0 100).map
        fun e => e.sequence_num) = [0, 1] := by
  have h := c6_transcript_monotonic (fun _ => none) [] "e0" 0 "s1" "agent"
    "header" "null" [] opsC6 100 rfl
  refine ⟨h.1.1 rfl, h.2.trans ?_⟩
  decide

/-- C10: rows whose `session_data`/`event_data` is `NULL` or fails JSON
parsing are still returned by the read paths, with `{}` substituted for the
blob: the row-to-dict converters are total and substitute `Json.obj []`,
`get_sessions`/`get_events` return one dict per fetched row (no row is
dropped), and `get_session`/`get_header` find a row exactly when one
matches. -/
theorem c10_malformed_blob_defaults (parse : String → Option Json)
    (stable : List SessionRow) (ttable : List EventRow)
    (agent key sid : String) (offset limit : Nat) :
    (∀ r : SessionRow,
       (r.session_data = RawVal.null ∨
        ∃ s, r.session_data = RawVal.text s ∧ parse s = none) →
       (rowToSession parse r).session_data = Json.obj []) ∧
    (∀ r : EventRow,
       (r.event_data = RawVal.null ∨
        ∃ s, r.event_data = RawVal.text s ∧ parse s = none) →
       (rowToEvent parse r).event_data = Json.obj []) ∧
    (getSessions parse stable agent).length =
      (stable.filter fun r => r.agent_id = agent).length ∧
    ((getSession parse stable key).isSome = true ↔
      ∃ r ∈ stable, r.session_key = key) ∧
    (getEvents parse ttable sid offset limit).length =
      min limit ((ttable.filter fun e => e.session_id = sid).length - offset) ∧
    ((getHeader parse ttable sid).isSome = true ↔
      ∃ r ∈ ttable, r.session_id = sid ∧ r.sequence_num = 0) := by
  have hmapSome : ∀ {α β : Type} (o : Option α) (f : α → β),
      (o.map f).isSome = o.isSome := by
    intro α β o f
    cases o <;> rfl
  refine ⟨?_, ?_, ?_, ?_, ?_, ?_⟩
  · intro r hr
    show decodeBlob parse r.session_data = Json.obj []
    rcases hr with hnull | ⟨s, hs, hp⟩
    · rw [hnull]
      rfl
    · rw [hs]
      show (parse s).getD (Json.obj []) = Json.obj []
      rw [hp]
      rfl
  · intro r hr
    show decodeBlob parse r.event_data = Json.obj []
    rcases hr with hnull | ⟨s, hs, hp⟩
    · rw [hnull]
      rfl
    · rw [hs]
      show (parse s).getD (Json.obj []) = Json.obj []
      rw [hp]
      rfl
  · unfold getSessions
    rw [List.length_map]
    exact (List.perm_insertionSort _ _).length_eq
  · unfold getSession
    rw [hmapSome, List.find?_isSome]
    constructor
    · rintro ⟨r, hr, hp⟩
      exact ⟨r, hr, by simpa using hp⟩
    · rintro ⟨r, hr, hp⟩
      exact ⟨r, hr, by simpa using hp⟩
  · unfold getEvents getEventsRows
    rw [List.length_map, List.length_take, List.length_drop,
      (List.perm_insertionSort _ _).length_eq]
  · unfold getHeader
    rw [hmapSome, List.find?_isSome]
    constructor
    · rintro ⟨r, hr, hp⟩
      simp only [Bool.and_eq_true, decide_eq_true_eq] at hp
      exact ⟨r, hr, hp.1, by exact_mod_cast hp.2⟩
    · rintro ⟨r, hr, h1, h2⟩
      refine ⟨r, hr, ?_⟩
      simp [h1, h2]

/-- A session row with malformed data is still returned. -/
def badSessionRow : SessionRow :=
  { session_key := "k1"
    session_id := "s1"
    agent_id := "default"
    updated_at := 10
    session_data := RawVal.text "not json"
    channel := none
    label := none }

/-- Witness for C10 at a parser that rejects everything. -/
theorem c10_malformed_blob_defaults_witness :
    (rowToSession (fun _ => none) badSessionRow).session_data = Json.obj [] ∧
    (getSessions (fun _ => none) [badSessionRow] "default").length = 1 ∧
    ((getSession (fun _ => none) [badSessionRow] "k1").isSome = true) := by
  have h := c10_malformed_blob_defaults (fun _ => none) [badSessionRow] []
    "default" "k1" "s1" 0 100
  refine ⟨h.1 badSessionRow (Or.inr ⟨"not json", rfl, rfl⟩), ?_, ?_⟩
  · rw [h.2.2.1]
    rfl
  · exact h.2.2.2.1.mpr ⟨badSessionRow, by simp, rfl⟩

/-- `ORDER BY updated_at DESC` is total. -/
instance : IsTotal SessionRow fun a b => b.updated_at ≤ a.updated_at :=
  ⟨fun a b => le_total b.updated_at a.updated_at⟩

/-- `ORDER BY updated_at DESC` is transitive. -/
instance : IsTrans SessionRow fun a b => b.updated_at ≤ a.updated_at :=
  ⟨fun _ _ _ hab hbc => le_trans hbc hab⟩

/-- With unique `session_key`s, a row of the agent survives `cap_count`
exactly when it lies in the keep subquery's first `max_count` rows. -/
theorem capKeep_mem_iff (table : List SessionRow) (agent : String) (n : Nat)
    (hnodup : (table.map fun r => r.session_key).Nodup)
    (r : SessionRow) (hr : r ∈ table.filter fun x => x.agent_id = agent) :
    r.session_key ∈ capKeepKeys table agent n ↔
      r ∈ (List.insertionSort (fun a b : SessionRow => b.updated_at ≤ a.updated_at)
            (table.filter fun x => x.agent_id = agent)).take n := by
  have hA : ((table.filter fun x => x.agent_id = agent).map
      fun x => x.session_key).Nodup := by
    refine List.Nodup.sublist ?_ hnodup
    exact List.Sublist.map _ (List.filter_sublist table)
  have hperm := List.perm_insertionSort
    (fun a b : SessionRow => b.updated_at ≤ a.updated_at)
    (table.filter fun x => x.agent_id = agent)
  constructor
  · intro hk
    unfold capKeepKeys at hk
    rw [List.mem_map] at hk
    obtain ⟨s, hs, hkey⟩ := hk
    have hsA : s ∈ table.filter fun x => x.agent_id = agent :=
      hperm.mem_iff.mp (List.take_subset n _ hs)
    have := List.inj_on_of_nodup_map hA hsA hr hkey
    rwa [← this]
  · intro hmem
    unfold capKeepKeys
    rw [List.mem_map]
    exact ⟨r, hmem, rfl⟩

/-- C9: with unique session keys, `cap_count` leaves exactly
`min(max_count, prior agent session count)` sessions for the agent, the
kept ones are the most recently updated, and an immediate second
`cap_count` deletes nothing: it returns removed count `0` and the same
table. -/
theorem c9_cap_count_idempotent (table : List SessionRow) (agent : String)
    (n : Nat) (hnodup : (table.map fun r => r.session_key).Nodup) :
    ((capCount table agent n).1.filter fun r => r.agent_id = agent).length =
      min n (table.filter fun r => r.agent_id = agent).length ∧
    capCount (capCount table agent n).1 agent n =
      ((capCount table agent n).1, 0) ∧
    (∀ r ∈ table, r.agent_id = agent →
      r.session_key ∉ capKeepKeys table agent n →
      ∀ r' ∈ table, r'.agent_id = agent →
        r'.session_key ∈ capKeepKeys table agent n →
        r.updated_at ≤ r'.updated_at) := by
  have htnodup : table.Nodup := List.Nodup.of_map _ hnodup
  have hperm := List.perm_insertionSort
    (fun a b : SessionRow => b.updated_at ≤ a.updated_at)
    (table.filter fun x => x.agent_id = agent)
  have hAnodup : (table.filter fun x => x.agent_id = agent).Nodup :=
    List.Nodup.sublist (List.filter_sublist table) htnodup
  have hSnodup : (List.insertionSort
      (fun a b : SessionRow => b.updated_at ≤ a.updated_at)
      (table.filter fun x => x.agent_id = agent)).Nodup :=
    hperm.nodup_iff.mpr hAnodup
  -- the agent's surviving rows are a permutation of the keep subquery rows
  have hfilter1 : ((capCount table agent n).1.filter
      fun r => r.agent_id = agent) =
      table.filter fun r =>
        decide (r.agent_id = agent) &&
          (capKeepKeys table agent n).contains r.session_key := by
    show List.filter _ (List.filter _ table) = _
    rw [List.filter_filter]
    refine List.filter_congr ?_
    intro x _
    by_cases hag : x.agent_id = agent <;>
      by_cases hk : (capKeepKeys table agent n).contains x.session_key <;>
      simp [hag, hk]
  have hperm2 : (table.filter fun r =>
      decide (r.agent_id = agent) &&
        (capKeepKeys table agent n).contains r.session_key).Perm
      ((List.insertionSort (fun a b : SessionRow => b.updated_at ≤ a.updated_at)
        (table.filter fun x => x.agent_id = agent)).take n) := by
    refine (List.perm_ext_iff_of_nodup ?_ ?_).mpr ?_
    · exact List.Nodup.sublist (List.filter_sublist table) htnodup
    · exact List.Nodup.sublist (List.take_sublist n _) hSnodup
    · intro x
      rw [List.mem_filter]
      constructor
      · rintro ⟨hx, hcond⟩
        simp only [Bool.and_eq_true, decide_eq_true_eq] at hcond
        have hxA : x ∈ table.filter fun y => y.agent_id = agent :=
          List.mem_filter.mpr ⟨hx, by simp [hcond.1]⟩
        exact (capKeep_mem_iff table agent n hnodup x hxA).mp
          (by simpa using hcond.2)
      · intro hx
        have hxS : x ∈ List.insertionSort
            (fun a b : SessionRow => b.updated_at ≤ a.updated_at)
            (table.filter fun y => y.agent_id = agent) :=
          List.take_subset n _ hx
        have hxA : x ∈ table.filter fun y => y.agent_id = agent :=
          hperm.mem_iff.mp hxS
        have hxag : x.agent_id = agent := by
          have := (List.mem_filter.mp hxA).2
          simpa using this
        refine ⟨List.mem_of_mem_filter hxA, ?_⟩
        have hkmem : x.session_key ∈ capKeepKeys table agent n :=
          (capKeep_mem_iff table agent n hnodup x hxA).mpr hx
        simp [hxag, hkmem]
  have hlen1 : ((capCount table agent n).1.filter
      fun r => r.agent_id = agent).length =
      min n (table.filter fun r => r.agent_id = agent).length := by
    rw [hfilter1, hperm2.length_eq, List.length_take, hperm.length_eq]
  refine ⟨hlen1, ?_, ?_⟩
  · -- second call: every surviving row of the agent is in its keep set
    have hkeep2 : ∀ r ∈ (capCount table agent n).1, r.agent_id = agent →
        r.session_key ∈ capKeepKeys (capCount table agent n).1 agent n := by
      intro r hr hag
      have hlen2 : ((capCount table agent n).1.filter
          fun x => x.agent_id = agent).length ≤ n := by
        rw [hlen1]
        exact min_le_left n _
      have hperm3 := List.perm_insertionSort
        (fun a b : SessionRow => b.updated_at ≤ a.updated_at)
        ((capCount table agent n).1.filter fun x => x.agent_id = agent)
      have htake : (List.insertionSort
          (fun a b : SessionRow => b.updated_at ≤ a.updated_at)
          ((capCount table agent n).1.filter fun x => x.agent_id = agent)).take
            n =
          List.insertionSort
            (fun a b : SessionRow => b.updated_at ≤ a.updated_at)
            ((capCount table agent n).1.filter fun x => x.agent_id = agent) :=
        List.take_of_length_le (by rw [hperm3.length_eq]; exact hlen2)
      unfold capKeepKeys
      rw [htake, List.mem_map]
      exact ⟨r, hperm3.mem_iff.mpr (List.mem_filter.mpr ⟨hr, by simp [hag]⟩),
        rfl⟩
    have hall : ∀ r ∈ (capCount table agent n).1,
        (decide (r.agent_id = agent) &&
          !((capKeepKeys (capCount table agent n).1 agent n).contains
            r.session_key)) = false := by
      intro r hr
      by_cases hag : r.agent_id = agent
      · have := hkeep2 r hr hag
        simp [hag, this]
      · simp [hag]
    show ((capCount table agent n).1.filter _,
        (capCount table agent n).1.countP _) = _
    refine Prod.ext ?_ ?_
    · show (capCount table agent n).1.filter _ = (capCount table agent n).1
      rw [List.filter_eq_self]
      intro a ha
      rw [Bool.not_eq_true', hall a ha]
    · show (capCount table agent n).1.countP _ = 0
      rw [List.countP_eq_zero]
      intro a ha
      rw [hall a ha]
      exact Bool.false_ne_true
  · -- kept rows are the most recently updated
    intro r hr hag hnotin r' hr' hag' hin
    have hrA : r ∈ table.filter fun x => x.agent_id = agent :=
      List.mem_filter.mpr ⟨hr, by simp [hag]⟩
    have hr'A : r' ∈ table.filter fun x => x.agent_id = agent :=
      List.mem_filter.mpr ⟨hr', by simp [hag']⟩
    have hr'take := (capKeep_mem_iff table agent n hnodup r' hr'A).mpr
    have hr'mem : r' ∈ (List.insertionSort
        (fun a b : SessionRow => b.updated_at ≤ a.updated_at)
        (table.filter fun x => x.agent_id = agent)).take n :=
      (capKeep_mem_iff table agent n hnodup r' hr'A).mp hin
    have hrS : r ∈ List.insertionSort
        (fun a b : SessionRow => b.updated_at ≤ a.updated_at)
        (table.filter fun x => x.agent_id = agent) :=
      hperm.mem_iff.mpr hrA
    have hrdrop : r ∈ (List.insertionSort
        (fun a b : SessionRow => b.updated_at ≤ a.updated_at)
        (table.filter fun x => x.agent_id = agent)).drop n := by
      have hsplit : r ∈ (List.insertionSort
          (fun a b : SessionRow => b.updated_at ≤ a.updated_at)
          (table.filter fun x => x.agent_id = agent)).take n ++
          (List.insertionSort
            (fun a b : SessionRow => b.updated_at ≤ a.updated_at)
            (table.filter fun x => x.agent_id = agent)).drop n := by
        rw [List.take_append_drop]
        exact hrS
      rcases List.mem_append.mp hsplit with htk | hdp
      · exact absurd ((capKeep_mem_iff table agent n hnodup r hrA).mpr htk)
          hnotin
      · exact hdp
    have hpair : List.Pairwise
        (fun a b : SessionRow => b.updated_at ≤ a.updated_at)
        ((List.insertionSort
          (fun a b : SessionRow => b.updated_at ≤ a.updated_at)
          (table.filter fun x => x.agent_id = agent)).take n ++
         (List.insertionSort
           (fun a b : SessionRow => b.updated_at ≤ a.updated_at)
           (table.filter fun x => x.agent_id = agent)).drop n) := by
      rw [List.take_append_drop]
      exact List.sorted_insertionSort _ _
    exact (List.pairwise_append.mp hpair).2.2 r' hr'mem r hrdrop

/-- Three sessions of one agent, updated at times 10, 20, 30. -/
def sessA : SessionRow := ⟨"k1", "s1", "default", 10, RawVal.null, none, none⟩

/-- Second concrete session. -/
def sessB : SessionRow := ⟨"k2", "s2", "default", 20, RawVal.null, none, none⟩

/-- Third concrete session. -/
def sessC : SessionRow := ⟨"k3", "s3", "default", 30, RawVal.null, none, none⟩

/-- Witness for C9: capping three sessions to two removes one, leaves
`min 2 3 = 2`, and a second cap removes zero. -/
theorem c9_cap_count_idempotent_witness :
    ((capCount [sessA, sessB, sessC] "default" 2).1.filter
        fun r => r.agent_id = "default").length =
      min 2 ([sessA, sessB, sessC].filter
        fun r => r.agent_id = "default").length ∧
    capCount (capCount [sessA, sessB, sessC] "default" 2).1 "default" 2 =
      ((capCount [sessA, sessB, sessC] "default" 2).1, 0) ∧
    (capCount [sessA, sessB, sessC] "default" 2).2 = 1 := by
  have h := c9_cap_count_idempotent [sessA, sessB, sessC] "default" 2
    (by decide)
  exact ⟨h.1, h.2.1, by decide⟩

/-- The first components of a filterMap that tags rows form a sublist of
the source table. -/
theorem filterMap_fst_sublist (f : MemoryRow → Option (MemoryRow × ℚ))
    (hf : ∀ r p, f r = some p → p.1 = r) (table : List MemoryRow) :
    ((table.filterMap f).map fun p => p.1).Sublist table := by
  induction table with
  | nil => simp
  | cons r l ih =>
    rw [List.filterMap_cons]
    rcases hfr : f r with _ | p
    · exact ih.cons r
    · rw [List.map_cons, hf r p hfr]
      exact ih.cons₂ r

/-- Dropping elements through an `if … then none else some` keeps a
sublist. -/
theorem filterMap_if_sublist {α : Type} (c : α → Prop) [DecidablePred c]
    (l : List α) :
    (l.filterMap fun p => if c p then none else some p).Sublist l := by
  induction l with
  | nil => simp
  | cons a l ih =>
    rw [List.filterMap_cons]
    by_cases hc : c a
    · rw [if_pos hc]
      exact ih.cons a
    · rw [if_neg hc]
      exact ih.cons₂ a

/-- Counting table entries lying in a duplicate-free id list contained in
the (duplicate-free) table ids gives the id list's length. -/
theorem countP_mem_eq_length (ids tids : List String) (h1 : ids.Nodup)
    (h2 : tids.Nodup) (hsub : ∀ a ∈ ids, a ∈ tids) :
    tids.countP (fun t => decide (t ∈ ids)) = ids.length := by
  rw [List.countP_eq_length_filter]
  have hperm : (tids.filter fun t => decide (t ∈ ids)).Perm ids := by
    refine (List.perm_ext_iff_of_nodup ?_ h1).mpr ?_
    · exact List.Nodup.sublist (List.filter_sublist tids) h2
    · intro a
      rw [List.mem_filter]
      constructor
      · rintro ⟨-, hmem⟩
        simpa using hmem
      · intro hmem
        exact ⟨hsub a hmem, by simpa using hmem⟩
  exact hperm.length_eq

/-- The rows scored by `recall`'s store query come from the table. -/
theorem memScored_fst_sublist (dist : Vec → Vec → ℚ) (qvec : Vec)
    (agent : String) (table : List MemoryRow) :
    ((memScored dist qvec agent table).map fun p => p.1).Sublist table := by
  refine filterMap_fst_sublist _ ?_ table
  intro r p hfp
  unfold memScored at hfp
  split at hfp
  · cases hfp
  · split at hfp
    · cases hfp
      rfl
    · cases hfp

/-- C5: after `recall` returns, exactly the rows whose `memory_id` was
returned have `access_count` incremented by one and `accessed_at` set to
now — every other row, including fetched candidates dropped below
`min_score`, is byte-for-byte unchanged — the returned ids are distinct
and number exactly the affected rows, and the returned dicts carry the
pre-update `access_count`/`accessed_at` (read-then-update order). -/
theorem c5_recall_access_bookkeeping (env : EmbEnv) (st : EmbState)
    (dist : Vec → Vec → ℚ) (table : List MemoryRow) (query agent : String)
    (maxResults : Nat) (minScore : ℚ) (now : ℤ)
    (results : List MemResult) (newTable : List MemoryRow)
    (hnodup : (table.map fun r => r.memory_id).Nodup)
    (hok : recallMemories env st dist table query agent maxResults minScore now
      = .ok (results, newTable)) :
    newTable.length = table.length ∧
    (∀ i (hi : i < table.length) (hi' : i < newTable.length),
      (((table.get ⟨i, hi⟩).memory_id ∈ results.map fun res => res.memory_id) →
        newTable.get ⟨i, hi'⟩ = bumpAccess now (table.get ⟨i, hi⟩)) ∧
      (((table.get ⟨i, hi⟩).memory_id ∉ results.map fun res => res.memory_id) →
        newTable.get ⟨i, hi'⟩ = table.get ⟨i, hi⟩)) ∧
    (results.map fun res => res.memory_id).Nodup ∧
    results.length =
      (table.countP fun r =>
        decide (r.memory_id ∈ results.map fun res => res.memory_id)) ∧
    (∀ res ∈ results, ∃ r ∈ table, r.memory_id = res.memory_id ∧
      res.access_count = r.access_count ∧ res.accessed_at = r.accessed_at) := by
  unfold recallMemories at hok
  rcases hq : embedQuery env st query with e | qvec
  · rw [hq] at hok
    cases hok
  · rw [hq] at hok
    have hpair := Except.ok.inj hok
    have hres :
        ((recallKept dist qvec agent maxResults minScore table).map
          fun p => mkMemResult p.1 (1 - p.2)) = results :=
      congrArg Prod.fst hpair
    have htab :
        (if ((recallKept dist qvec agent maxResults minScore table).map
            fun p => p.1.memory_id).isEmpty then table
         else table.map fun r =>
           if r.memory_id ∈ ((recallKept dist qvec agent maxResults minScore
               table).map fun p => p.1.memory_id)
           then bumpAccess now r else r) = newTable :=
      congrArg Prod.snd hpair
    have hmapid : (results.map fun res => res.memory_id) =
        ((recallKept dist qvec agent maxResults minScore table).map
          fun p => p.1.memory_id) := by
      rw [← hres, List.map_map]
      rfl
    have hrowmem : ∀ p ∈ recallKept dist qvec agent maxResults minScore table,
        p.1 ∈ table := by
      intro p hp
      have h1 := (recallKept_subset dist qvec agent maxResults minScore table
        p hp).1
      have h2 : p ∈ memScored dist qvec agent table :=
        (List.perm_insertionSort _ _).mem_iff.mp (List.take_subset _ _ h1)
      exact (memScored_fst_sublist dist qvec agent table).subset
        (List.mem_map_of_mem _ h2)
    have hidsnodup :
        (((recallKept dist qvec agent maxResults minScore table)).map
          fun p => p.1.memory_id).Nodup := by
      have hsub1 : ((recallKept dist qvec agent maxResults minScore
          table).map fun p => p.1.memory_id).Sublist
          ((memTopK dist qvec agent maxResults table).map
            fun p => p.1.memory_id) :=
        List.Sublist.map _
          (filterMap_if_sublist (fun p : MemoryRow × ℚ => 1 - p.2 < minScore)
            (memTopK dist qvec agent maxResults table))
      refine List.Nodup.sublist hsub1 ?_
      unfold memTopK
      rw [List.map_take]
      refine List.Nodup.sublist (List.take_sublist _ _) ?_
      have hperm := (List.perm_insertionSort
        (fun a b : MemoryRow × ℚ => a.2 ≤ b.2)
        (memScored dist qvec agent table)).map fun p => p.1.memory_id
      refine hperm.nodup_iff.mpr ?_
      have hscored : ((memScored dist qvec agent table).map
          fun p => p.1.memory_id) =
          (((memScored dist qvec agent table).map fun p => p.1).map
            fun r => r.memory_id) := by
        rw [List.map_map]
        rfl
      rw [hscored]
      exact List.Nodup.sublist
        (List.Sublist.map _ (memScored_fst_sublist dist qvec agent table))
        hnodup
    refine ⟨?_, ?_, ?_, ?_, ?_⟩
    · rw [← htab]
      by_cases hemp : ((recallKept dist qvec agent maxResults minScore
          table).map fun p => p.1.memory_id).isEmpty
      · rw [if_pos hemp]
      · rw [if_neg hemp, List.length_map]
    · intro i hi hi'
      by_cases hemp : ((recallKept dist qvec agent maxResults minScore
          table).map fun p => p.1.memory_id).isEmpty
      · have hknil : recallKept dist qvec agent maxResults minScore table
            = [] := by
          have := List.isEmpty_iff.mp (by
            rw [List.isEmpty_iff_length_eq_zero, List.length_map] at hemp
            rw [List.isEmpty_iff_length_eq_zero]
            exact hemp)
          exact this
        have hresnil : results = [] := by
          rw [← hres, hknil]
          rfl
        constructor
        · intro hmem
          rw [hresnil] at hmem
          cases hmem
        · intro hmem
          have hnt : newTable = table := by
            rw [← htab, if_pos hemp]
          revert hi'
          rw [hnt]
          intro hi'
          rfl
      · have hnt : newTable = table.map fun r =>
            if r.memory_id ∈ ((recallKept dist qvec agent maxResults minScore
                table).map fun p => p.1.memory_id)
            then bumpAccess now r else r := by
          rw [← htab, if_neg hemp]
        constructor
        · intro hmem
          rw [hmapid] at hmem
          revert hi'
          rw [hnt]
          intro hi'
          rw [List.get_map]
          rw [if_pos hmem]
        · intro hmem
          rw [hmapid] at hmem
          revert hi'
          rw [hnt]
          intro hi'
          rw [List.get_map]
          rw [if_neg hmem]
    · rw [hmapid]
      exact hidsnodup
    · have hlen : results.length =
          ((recallKept dist qvec agent maxResults minScore table).map
            fun p => p.1.memory_id).length := by
        rw [← hres, List.length_map, List.length_map]
      rw [hlen]
      simp only [hmapid]
      have hcnt := List.countP_map
        (fun t => decide (t ∈ ((recallKept dist qvec agent maxResults minScore
          table).map fun p => p.1.memory_id)))
        (fun r : MemoryRow => r.memory_id) table
      have hcomp : ((fun t => decide (t ∈ ((recallKept dist qvec agent
          maxResults minScore table).map fun p => p.1.memory_id))) ∘
          fun r : MemoryRow => r.memory_id) =
          fun r : MemoryRow => decide (r.memory_id ∈
            ((recallKept dist qvec agent maxResults minScore table).map
              fun p => p.1.memory_id)) := rfl
      rw [hcomp] at hcnt
      rw [← hcnt]
      refine (countP_mem_eq_length _ _ hidsnodup hnodup ?_).symm
      intro a ha
      rw [List.mem_map] at ha
      obtain ⟨p, hp, hpe⟩ := ha
      rw [← hpe]
      exact List.mem_map_of_mem _ (hrowmem p hp)
    · intro res hresmem
      rw [← hres] at hresmem
      rw [List.mem_map] at hresmem
      obtain ⟨p, hp, hpe⟩ := hresmem
      exact ⟨p.1, hrowmem p hp, by rw [← hpe]; exact ⟨rfl, rfl, rfl⟩⟩

/-- A second stored memory whose embedding is far from every query. -/
def memRow1 : MemoryRow :=
  { memory_id := "m2"
    agent_id := "default"
    text := "unrelated fact"
    importance := 7 / 10
    category := "other"
    embedding := some [2]
    created_at := 5
    accessed_at := some 5
    access_count := 0 }

/-- A distance operator that puts `[1]` at distance 0 and everything else
at distance 2 (similarity -1, below any usual threshold). -/
def dist1 : Vec → Vec → ℚ := fun v _ => if v = [1] then 0 else 2

/-- Witness for C5: recalling against two stored memories returns one,
bumps exactly that row, and leaves the fetched-but-dropped row unchanged. -/
theorem c5_recall_access_bookkeeping_witness :
    recallMemories envDb stDatabase dist1 [memRow0, memRow1] "q" "default" 5
        (3 / 10) 7 =
      .ok ([mkMemResult memRow0 (1 - 0)], [bumpAccess 7 memRow0, memRow1]) ∧
    [bumpAccess 7 memRow0, memRow1].length = [memRow0, memRow1].length ∧
    [bumpAccess 7 memRow0, memRow1].get ⟨1, by norm_num⟩ =
      [memRow0, memRow1].get ⟨1, by norm_num⟩ ∧
    (bumpAccess 7 memRow0).access_count = memRow0.access_count + 1 ∧
    (bumpAccess 7 memRow0).accessed_at = some 7 := by
  have hq : embedQuery envDb stDatabase "q" = .ok [1] := rfl
  have hcond0 : ¬((1 : ℚ) - 0 < 3 / 10) := by norm_num
  have hcond1 : (1 : ℚ) - 2 < 3 / 10 := by norm_num
  have hkept : recallKept dist1 [1] "default" 5 (3 / 10) [memRow0, memRow1] =
      [(memRow0, 0)] := by
    have htop : memTopK dist1 [1] "default" 5 [memRow0, memRow1] =
        [(memRow0, 0), (memRow1, 2)] := rfl
    simp only [recallKept, htop, List.filterMap_cons, List.filterMap_nil,
      if_neg hcond0, if_pos hcond1]
  have hok : recallMemories envDb stDatabase dist1 [memRow0, memRow1] "q"
      "default" 5 (3 / 10) 7 =
      .ok ([mkMemResult memRow0 (1 - 0)], [bumpAccess 7 memRow0, memRow1]) := by
    simp only [recallMemories, hq, hkept]
    rfl
  have h := c5_recall_access_bookkeeping envDb stDatabase dist1
    [memRow0, memRow1] "q" "default" 5 (3 / 10) 7
    [mkMemResult memRow0 (1 - 0)] [bumpAccess 7 memRow0, memRow1]
    (by decide) hok
  refine ⟨hok, h.1, ?_, rfl, rfl⟩
  exact (h.2.1 1 (by norm_num) (by norm_num)).2 (by decide)

end Oraclaw
